import Mathlib

/-!
# Verification of the cancelable stream-pipeline examples

This file shallowly embeds the Go pipeline examples of
`goplay/pkg/net/http/simple-rest/numerals/numerals.go` (the fan-out/fan-in
prime-finder pipeline and its helper stages), the closed-channel reading
semantics documented in the repository's channel notes, and the
roman-numeral HTTP handler of `simple-rest/server/main.go`.

Modelling conventions:
* A Go channel carrying a finite run of values is modelled as the `List` of
  values sent before the channel was closed.  Reading a closed channel in Go
  immediately yields the element type's zero value, so the `i`-th read of a
  stream `xs` with zero value `z` is `xs.getD i z`.
* Go `int` is modelled as `Int`; all values in the claims stay far inside
  the 64-bit range, so wrap-around never matters here.
* Go `%` on `int` agrees with `Int.emod` whenever both operands are
  nonnegative, which is the case at every `%` the embedded code reaches
  with a nonempty divisor range.
* The concurrent behaviour of the pipeline (cancellation, fan-in closing,
  fan-out delivery) is modelled by explicit labelled transition systems
  further below, one per scenario, with unbuffered (rendezvous) channels.
-/

/-! ## The naive prime finder stage

Embeds `primeFinder` (numerals.go, fan-out/fan-in section):

```
for integer := range intStream {
    integer -= 1
    prime := true
    for divisor := integer - 1; divisor > 1; divisor-- {
        if integer%divisor == 0 { prime = false; break }
    }
    if prime { ... primeStream <- integer ... }
}
```
-/

/-- The divisor candidates scanned by the inner loop of `primeFinder`:
`integer - 1, integer - 2, ..., 2` (empty when `integer ≤ 2`). -/
def divisorCandidates (integer : Int) : List Int :=
  (List.range (integer - 2).toNat).map (fun (j : Nat) => integer - 1 - (j : Int))

/-- The inner loop of `primeFinder`: `prime` stays `true` exactly when no
scanned divisor divides `integer`. -/
def primeLoop (integer : Int) : Bool :=
  !(divisorCandidates integer).any (fun d => integer % d == 0)

/-- One iteration of `primeFinder`'s outer loop on the value read from
`intStream`: first `integer -= 1`, then the divisor scan, then emit the
(decremented) value when the scan found no divisor. -/
def primeFinderStep (n : Int) : Option Int :=
  let integer := n - 1
  if primeLoop integer then some integer else none

/-- The `primeFinder` stage as a stream transformer (its cancellation-free
run over a finite input stream). -/
def primeFinder (intStream : List Int) : List Int :=
  intStream.filterMap primeFinderStep

/-! ## The `take` stage

Embeds `take` (numerals.go):

```
for i := 0; i < num; i++ {
    select {
    case <-done:
        return
    case takeStream <- <-valueStream:
    }
}
```

The `i`-th iteration evaluates `<-valueStream` and forwards the result;
once `valueStream` is closed, each such read yields the zero value `z`
immediately, so with `done` never activated the output stream is the list
of the first `num` reads. -/
def take (valueStream : List α) (z : α) (num : Int) : List α :=
  (List.range num.toNat).map (fun i => valueStream.getD i z)

/-! ## The generator and the multiply transform

Embeds `generator` and `multiply` from the pipeline section of numerals.go.
`generator` ranges over its seed slice sending each element in order;
`multiply` ranges over its input stream sending `i * multiplier` for each
value `i` read.  Their cancellation-free runs over finite streams are: -/

def generator (integers : List Int) : List Int := integers

def multiply : List Int → Int → List Int
  | [], _ => []
  | i :: rest, m => i * m :: multiply rest m

example : primeFinder [2, 3, 4, 5, 6, 7, 8, 9, 10, 11] = [1, 2, 3, 5, 7] := by decide

example : take [(5 : Int)] 0 3 = [5, 0, 0] := by decide

example : multiply (generator [1, 2, 3, 4]) 2 = [2, 4, 6, 8] := by decide

/-! ## The cancellation signal

Embeds the `done` channel as used in `main`:
`done := make(chan interface{})` followed (exactly once) by `close(done)`.
In Go, `close` on an already-closed channel is a runtime panic
("close of closed channel"), modelled with `Except`; a receive from the
`done` channel completes (with the zero value) exactly when the channel is
closed. -/

structure CancelSignal where
  closed : Bool
  deriving DecidableEq

/-- `make(chan interface{})`: a fresh, not-yet-closed done channel. -/
def newCancelSignal : CancelSignal := ⟨false⟩

/-- Go `close(done)`: transitions the channel to closed, or panics when the
channel is already closed. -/
def closeSignal (c : CancelSignal) : Except String CancelSignal :=
  if c.closed then Except.error "close of closed channel" else Except.ok ⟨true⟩

/-- A receive from the done channel can complete if and only if the channel
is closed; the received zero value carries no information. -/
def doneObserved (c : CancelSignal) : Bool := c.closed

/-! ## Operational model of the pipeline `take(done, repeatFn(done, fn), num)`

This is the representative cancellable pipeline of the source (an infinite
generator feeding a bounded consumer, exactly the shape `main` uses through
`toInt`/`primeFinder`).  Channels are unbuffered, so a send and its
matching receive are one rendezvous step.  The system has three actors:

* the `repeatFn` goroutine: loops on
  `select { case <-done: return; case valueStream <- fn(): }`, and runs
  `defer close(valueStream)` when it returns;
* the `take` goroutine: per iteration first evaluates the **bare** receive
  `<-valueStream` (not racing `done`), then runs
  `select { case <-done: return; case takeStream <- v: }`, and runs
  `defer close(takeStream)` when it returns;
* the environment: the consumer of `takeStream` is always ready to receive,
  and `close(done)` may happen at any time (the claims quantify over the
  moment of cancellation).

In a Go `select` whose cases are simultaneously ready, the chosen case is
nondeterministic, so with `done` closed and a partner ready both the
`done` branch and the communication branch are enabled transitions. -/

/-- Program counter of the `repeatFn` goroutine. -/
inductive RepeatPC
  | select
  | terminated
  deriving DecidableEq

/-- Program counter of the `take` goroutine: about to evaluate
`<-valueStream`, about to run its `select` with the received value in hand,
or returned. -/
inductive TakePC
  | recv
  | send
  | terminated
  deriving DecidableEq

structure PipeState where
  doneClosed : Bool
  vClosed : Bool
  tClosed : Bool
  rp : RepeatPC
  tp : TakePC
  remaining : Nat
  deriving DecidableEq

/-- Transition labels of the pipeline system.  The last three are the
transitions of the `take` goroutine itself. -/
inductive PLabel
  | closeDone
  | repeatDone
  | rendezvous
  | recvClosedZero
  | takeDone
  | takeSend
  deriving DecidableEq

/-- One labelled step of the pipeline system (`none` = label not enabled).

* `closeDone`: the environment closes `done` (possible at any time, once).
* `repeatDone`: `repeatFn`'s select takes its `<-done` case; the goroutine
  returns and its deferred `close(valueStream)` runs.
* `rendezvous`: `repeatFn`'s select takes its send case, pairing with
  `take`'s pending bare receive.
* `recvClosedZero`: `take`'s bare receive completes on the closed
  `valueStream` with the zero value.
* `takeDone`: `take`'s select takes its `<-done` case; the goroutine
  returns and its deferred `close(takeStream)` runs.
* `takeSend`: `take`'s select sends downstream (the consumer is always
  ready); the loop either continues with the next iteration's bare receive
  or, when the iteration count is exhausted, returns and closes. -/
def pstep (C : PipeState) : PLabel → Option PipeState
  | PLabel.closeDone =>
      if C.doneClosed then none else some { C with doneClosed := true }
  | PLabel.repeatDone =>
      if C.rp = RepeatPC.select ∧ C.doneClosed then
        some { C with rp := RepeatPC.terminated, vClosed := true }
      else none
  | PLabel.rendezvous =>
      if C.rp = RepeatPC.select ∧ C.tp = TakePC.recv ∧ ¬C.vClosed then
        some { C with tp := TakePC.send }
      else none
  | PLabel.recvClosedZero =>
      if C.tp = TakePC.recv ∧ C.vClosed then
        some { C with tp := TakePC.send }
      else none
  | PLabel.takeDone =>
      if C.tp = TakePC.send ∧ C.doneClosed then
        some { C with tp := TakePC.terminated, tClosed := true }
      else none
  | PLabel.takeSend =>
      if C.tp = TakePC.send then
        if C.remaining ≤ 1 then
          some { C with tp := TakePC.terminated, tClosed := true, remaining := 0 }
        else
          some { C with tp := TakePC.recv, remaining := C.remaining - 1 }
      else none

/-- Initial configuration for `take(done, repeatFn(done, fn), num)` with
`num ≥ 1` iterations requested. -/
def initPipe (num : Nat) : PipeState :=
  { doneClosed := false, vClosed := false
    rp := RepeatPC.select
    tp := if num = 0 then TakePC.terminated else TakePC.recv
    tClosed := num == 0
    remaining := num }

/-- Both goroutines have returned. -/
def PipeTerminal (C : PipeState) : Prop :=
  C.rp = RepeatPC.terminated ∧ C.tp = TakePC.terminated

/-- `pstep` as an unlabelled relation. -/
def PipeStep (C C' : PipeState) : Prop := ∃ l, pstep C l = some C'

/-- Termination variant: strictly decreases along every step taken after
`done` has been closed. -/
def pmeasure (C : PipeState) : Nat :=
  (if C.rp = RepeatPC.select then 1 else 0) + 2 * C.remaining +
    (match C.tp with
     | TakePC.recv => 2
     | TakePC.send => 1
     | TakePC.terminated => 0)

/-- Every maximal execution from `C` reaches a terminal configuration
within `n` steps. -/
def AllTracesTerm : Nat → PipeState → Prop
  | 0, C => PipeTerminal C
  | n + 1, C => PipeTerminal C ∨
      ((∃ C', PipeStep C C') ∧ ∀ C', PipeStep C C' → AllTracesTerm n C')

/-! ## Operational model of `fanIn`

Embeds `fanIn` (numerals.go):

```
var wg sync.WaitGroup
multiplexedStream := make(chan interface{})
multiplex := func(c <-chan interface{}) {
    defer wg.Done()
    for i := range c {
        select { case <-done: return; case multiplexedStream <- i: }
    }
}
wg.Add(len(channels))
for _, c := range channels { go multiplex(c) }
go func() { wg.Wait(); close(multiplexedStream) }()
```

For the closing behaviour the forwarded values are irrelevant, so a
forwarder is abstracted to `running` (inside its loop) or `done` (returned
and `wg.Done` executed — whether because its input closed or because it
observed `done`).  The closer goroutine's `wg.Wait()` can complete exactly
when every forwarder has executed its `wg.Done()`. -/

/-- Program counter of one `multiplex` forwarder. -/
inductive FwdPC
  | running
  | done
  deriving DecidableEq

structure FanInState (k : Nat) where
  fwd : Fin k → FwdPC
  mergedClosed : Bool
  deriving DecidableEq

/-- Transition labels of the `fanIn` system with `k` input channels. -/
inductive FanInLabel (k : Nat)
  | forward (i : Fin k)
  | finish (i : Fin k)
  | closeMerged
  deriving DecidableEq

/-- One labelled step of the `fanIn` system.

* `forward i`: forwarder `i`, inside its loop, copies one value from its
  input to `multiplexedStream` (state unchanged apart from the value flow,
  which is abstracted away).
* `finish i`: forwarder `i` returns — its input channel closed or it took
  the `<-done` case — and executes its deferred `wg.Done()`.
* `closeMerged`: the closer goroutine's `wg.Wait()` completes (all
  forwarders finished) and it runs `close(multiplexedStream)`. -/
def finStep {k : Nat} (C : FanInState k) : FanInLabel k → Option (FanInState k)
  | FanInLabel.forward i =>
      if C.fwd i = FwdPC.running then some C else none
  | FanInLabel.finish i =>
      if C.fwd i = FwdPC.running then
        some { C with fwd := Function.update C.fwd i FwdPC.done }
      else none
  | FanInLabel.closeMerged =>
      if (∀ i, C.fwd i = FwdPC.done) ∧ ¬C.mergedClosed then
        some { C with mergedClosed := true }
      else none

/-- All forwarders running, merged stream open: the state right after
`fanIn` returns. -/
def initFanIn (k : Nat) : FanInState k := ⟨fun _ => FwdPC.running, false⟩

/-- Configurations of the `fanIn` system reachable from its start. -/
inductive FanInReach (k : Nat) : FanInState k → Prop
  | init : FanInReach k (initFanIn k)
  | step {C : FanInState k} {l : FanInLabel k} {C' : FanInState k} :
      FanInReach k C → finStep C l = some C' → FanInReach k C'

/-! ## Operational model of fan-out delivery

Embeds the fan-out of `main`:

```
finders := make([]<-chan interface{}, numFinders)
for i := 0; i < numFinders; i++ { finders[i] = primeFinder(done, randIntStream) }
```

All `W` workers range over the one shared input stream; each value sent on
the stream rendezvouses with exactly one of the competing receivers, chosen
nondeterministically by the scheduler.  The state records the values not
yet delivered (in stream order) and, per worker, the values it has received
so far (in its reception order). -/

structure FanOutState (W : Nat) where
  remaining : List Int
  received : Fin W → List Int
  deriving DecidableEq

/-- One delivery step: the next value of the shared stream is received by
worker `i`. -/
def foStep {W : Nat} (C : FanOutState W) (i : Fin W) : Option (FanOutState W) :=
  match C.remaining with
  | [] => none
  | v :: rest =>
      some ⟨rest, Function.update C.received i (C.received i ++ [v])⟩

/-- Configurations of the fan-out delivery system reachable from the input
stream `xs` with no value delivered yet. -/
inductive FanOutReach (W : Nat) (xs : List Int) : FanOutState W → Prop
  | init : FanOutReach W xs ⟨xs, fun _ => []⟩
  | step {C : FanOutState W} {i : Fin W} {C' : FanOutState W} :
      FanOutReach W xs C → foStep C i = some C' → FanOutReach W xs C'

/-! ## The roman-numeral HTTP handler

Embeds the handler of `simple-rest/server/main.go` from the point where the
path component has been parsed: `number` is the result of
`strconv.Atoi(strings.TrimSpace(urlPathElements[2]))` with the error
discarded (a failed parse leaves `number == 0`).

```
if number == 0 || number > 10 {
    w.WriteHeader(http.StatusNotFound)
    w.Write([]byte("404 - Not Found"))
} else {
    fmt.Fprintf(w, "%q", html.EscapeString(numerals.Numerals[number]))
}
```

`Numerals` is the `map[int]string` of numerals.go; a Go map read of a
missing key yields the zero value `""`.  `html.EscapeString` is the
identity on the roman-numeral values (no `<>&'"` occurs in them), and
`%q` wraps such a plain ASCII string in double quotes.  Writing without an
explicit `WriteHeader` responds with status 200. -/

def Numerals (k : Int) : String :=
  if k = 10 then "X"
  else if k = 9 then "IX"
  else if k = 8 then "VIII"
  else if k = 7 then "VII"
  else if k = 6 then "VI"
  else if k = 5 then "V"
  else if k = 4 then "IV"
  else if k = 3 then "III"
  else if k = 2 then "II"
  else if k = 1 then "I"
  else ""

structure RestResponse where
  status : Nat
  body : String
  deriving DecidableEq

/-- Go `fmt` verb `%q` on a plain ASCII string without escapes. -/
def quoteGo (s : String) : String := "\"" ++ s ++ "\""

def romanNumberHandler (number : Int) : RestResponse :=
  if number = 0 ∨ number > 10 then ⟨404, "404 - Not Found"⟩
  else ⟨200, quoteGo (Numerals number)⟩

example : romanNumberHandler (-5) = ⟨200, "\"\""⟩ := rfl
example : romanNumberHandler 0 = ⟨404, "404 - Not Found"⟩ := rfl
example : romanNumberHandler 3 = ⟨200, "\"III\""⟩ := rfl

/-! ## Lemmas about `take` -/

theorem take_length (xs : List α) (z : α) (num : Int) :
    (take xs z num).length = num.toNat := by
  simp [take]

theorem take_spec (xs : List α) (z : α) (n : Nat) :
    (List.range n).map (fun i => xs.getD i z) =
      List.take n xs ++ List.replicate (n - xs.length) z := by
  induction xs generalizing n with
  | nil =>
      simp [List.map_const']
  | cons a xs ih =>
      cases n with
      | zero => simp
      | succ m =>
          rw [List.range_succ_eq_map]
          simp only [List.map_cons, List.map_map]
          rw [show ((fun i => (a :: xs).getD i z) ∘ Nat.succ) =
                (fun i => xs.getD i z) from funext fun i => List.getD_cons_succ]
          rw [ih m]
          simp [List.getD_cons_zero]

theorem take_eq (xs : List α) (z : α) (num : Int) :
    take xs z num = List.take num.toNat xs ++ List.replicate (num.toNat - xs.length) z :=
  take_spec xs z num.toNat

theorem take_of_le (xs : List α) (z : α) (num : Int) (h : num.toNat ≤ xs.length) :
    take xs z num = List.take num.toNat xs := by
  rw [take_eq]
  rw [Nat.sub_eq_zero_of_le h]
  simp

theorem take_of_length_eq (xs : List α) (z : α) (num : Int)
    (h : xs.length = num.toNat) : take xs z num = xs := by
  rw [take_of_le xs z num (le_of_eq h.symm)]
  exact List.take_of_length_le (le_of_eq h)

/-! ## Lemmas about `primeFinder` -/

theorem mem_divisorCandidates {d integer : Int} :
    d ∈ divisorCandidates integer ↔ 2 ≤ d ∧ d ≤ integer - 1 := by
  constructor
  · intro hd
    obtain ⟨j, hj, hdj⟩ := List.mem_map.mp hd
    rw [List.mem_range] at hj
    omega
  · rintro ⟨h2, h1⟩
    exact List.mem_map.mpr ⟨(integer - 1 - d).toNat, List.mem_range.mpr (by omega), by omega⟩

theorem primeLoop_iff {integer : Int} :
    primeLoop integer = true ↔
      ∀ d : Int, 2 ≤ d → d ≤ integer - 1 → integer % d ≠ 0 := by
  simp only [primeLoop, Bool.not_eq_eq_eq_not, Bool.not_true, List.any_eq_false,
    beq_iff_eq]
  constructor
  · intro h d h2 h1
    exact h d (mem_divisorCandidates.mpr ⟨h2, h1⟩)
  · intro h d hd
    obtain ⟨h2, h1⟩ := mem_divisorCandidates.mp hd
    exact h d h2 h1

theorem emod_pred {integer : Int} (h : 3 ≤ integer) :
    integer % (integer - 1) = 1 := by
  calc integer % (integer - 1) = (1 + (integer - 1) * 1) % (integer - 1) := by
        norm_num
    _ = 1 % (integer - 1) := Int.add_mul_emod_self_left 1 (integer - 1) 1
    _ = 1 := Int.emod_eq_of_lt (by omega) (by omega)

/-- The divisor scan succeeds exactly when `integer` has no divisor strictly
between `1` and `integer - 1`: the extreme candidate `integer - 1` never
divides `integer` (the remainder is `1` whenever that candidate is in
range). -/
theorem primeLoop_iff_strict {integer : Int} :
    primeLoop integer = true ↔
      ∀ d : Int, 1 < d → d < integer - 1 → integer % d ≠ 0 := by
  rw [primeLoop_iff]
  constructor
  · intro h d h1 h2
    exact h d (by omega) (by omega)
  · intro h d h2 h1
    rcases lt_or_eq_of_le h1 with hlt | heq
    · exact h d (by omega) (by omega)
    · subst heq
      rw [emod_pred (by omega)]
      omega

theorem primeFinder_singleton (n : Int) :
    primeFinder [n] = if primeLoop (n - 1) then [n - 1] else [] := by
  simp only [primeFinder, primeFinderStep, List.filterMap_cons, List.filterMap_nil]
  by_cases h : primeLoop (n - 1) <;> simp [h]

/-! ## Lemmas about the pipeline transition system -/

/-- Closed channels stay closed: no pipeline step reopens `done`,
`valueStream` or `takeStream`. -/
theorem pstep_mono {C : PipeState} {l : PLabel} {C' : PipeState}
    (h : pstep C l = some C') :
    (C.doneClosed = true → C'.doneClosed = true) ∧
      (C.vClosed = true → C'.vClosed = true) ∧
      (C.tClosed = true → C'.tClosed = true) := by
  cases l <;> simp only [pstep] at h <;> split at h <;> try split at h
  all_goals
    first
      | exact Option.noConfusion h
      | (injection h with h
         subst h
         simp_all)

/-- Once `repeatFn` has returned, `valueStream` is closed; this shape is
preserved by every step. -/
def PipeCoherent (C : PipeState) : Prop :=
  C.rp = RepeatPC.terminated → C.vClosed = true

theorem pstep_coherent {C : PipeState} {l : PLabel} {C' : PipeState}
    (h : pstep C l = some C') (hc : PipeCoherent C) : PipeCoherent C' := by
  cases l <;> simp only [pstep] at h <;> split at h <;> try split at h
  all_goals
    first
      | exact Option.noConfusion h
      | (injection h with h
         subst h
         simp_all [PipeCoherent])

/-- After cancellation every step strictly decreases the termination
variant, and cancellation stays observed. -/
theorem pstep_decrease {C : PipeState} {l : PLabel} {C' : PipeState}
    (hd : C.doneClosed = true) (h : pstep C l = some C') :
    pmeasure C' < pmeasure C ∧ C'.doneClosed = true := by
  cases l <;> simp only [pstep] at h
  case closeDone => simp [hd] at h
  case repeatDone =>
      split at h
      · injection h with h
        subst h
        rcases ‹_ ∧ _› with ⟨hsel, -⟩
        cases C
        simp_all [pmeasure]
      · cases h
  case rendezvous =>
      split at h
      · injection h with h
        subst h
        rcases ‹_ ∧ _ ∧ _› with ⟨-, htp, -⟩
        cases C
        simp_all [pmeasure]
      · cases h
  case recvClosedZero =>
      split at h
      · injection h with h
        subst h
        rcases ‹_ ∧ _› with ⟨htp, -⟩
        cases C
        simp_all [pmeasure]
      · cases h
  case takeDone =>
      split at h
      · injection h with h
        subst h
        rcases ‹_ ∧ _› with ⟨htp, -⟩
        cases C
        simp_all [pmeasure]
      · cases h
  case takeSend =>
      split at h
      · split at h <;>
          (injection h with h
           subst h
           cases C
           simp_all [pmeasure]
           omega)
      · cases h

/-- After cancellation a non-terminal configuration always has an enabled
step: `repeatFn`'s select can take its `done` case, and once `valueStream`
is closed `take` can always move. -/
theorem pstep_progress {C : PipeState} (hd : C.doneClosed = true)
    (hc : PipeCoherent C) (hnt : ¬PipeTerminal C) : ∃ C', PipeStep C C' := by
  rcases hr : C.rp with _ | _
  · have hstep : pstep C PLabel.repeatDone =
        some { C with rp := RepeatPC.terminated, vClosed := true } := by
      simp [pstep, hr, hd]
    exact ⟨_, PLabel.repeatDone, hstep⟩
  · have hv : C.vClosed = true := hc hr
    rcases ht : C.tp with _ | _ | _
    · have hstep : pstep C PLabel.recvClosedZero =
          some { C with tp := TakePC.send } := by
        simp [pstep, ht, hv]
      exact ⟨_, PLabel.recvClosedZero, hstep⟩
    · have hstep : pstep C PLabel.takeDone =
          some { C with tp := TakePC.terminated, tClosed := true } := by
        simp [pstep, ht, hd]
      exact ⟨_, PLabel.takeDone, hstep⟩
    · exact absurd ⟨hr, ht⟩ hnt

/-- After cancellation, every maximal execution of the pipeline terminates
within `pmeasure` steps. -/
theorem allTracesTerm_of_measure (n : Nat) :
    ∀ C : PipeState, pmeasure C ≤ n → C.doneClosed = true → PipeCoherent C →
      AllTracesTerm n C := by
  induction n with
  | zero =>
      intro C hm hd hc
      show PipeTerminal C
      rcases hr : C.rp with _ | _
      · exfalso
        simp [pmeasure, hr] at hm
      · rcases ht : C.tp with _ | _ | _
        · exfalso
          simp [pmeasure, hr, ht] at hm
        · exfalso
          simp [pmeasure, hr, ht] at hm
        · exact ⟨hr, ht⟩
  | succ n ih =>
      intro C hm hd hc
      by_cases hterm : PipeTerminal C
      · exact Or.inl hterm
      · refine Or.inr ⟨pstep_progress hd hc hterm, ?_⟩
        rintro C' ⟨l, hl⟩
        have hdec := pstep_decrease hd hl
        exact ih C' (by omega) hdec.2 (pstep_coherent hl hc)

/-! ## Lemmas about the `fanIn` transition system -/

/-- Safety invariant of `fanIn`: whenever the merged stream is closed,
every forwarder (and hence its `wg.Done`) has already finished. -/
theorem fanIn_closed_invariant {k : Nat} {C : FanInState k}
    (h : FanInReach k C) (hm : C.mergedClosed = true) :
    ∀ i, C.fwd i = FwdPC.done := by
  induction h with
  | init => cases hm
  | step hreach hstep ih =>
      rename_i C l C'
      cases l with
      | forward i =>
          simp only [finStep] at hstep
          split at hstep
          · injection hstep with hstep
            subst hstep
            exact ih hm
          · exact Option.noConfusion hstep
      | finish i =>
          simp only [finStep] at hstep
          split at hstep
          · injection hstep with hstep
            subst hstep
            intro j
            rcases eq_or_ne j i with rfl | hne
            · simp [Function.update_same]
            · simp only [Function.update_noteq hne]
              exact ih hm j
          · exact Option.noConfusion hstep
      | closeMerged =>
          simp only [finStep] at hstep
          split at hstep
          · rename_i hguard
            injection hstep with hstep
            subst hstep
            exact hguard.1
          · exact Option.noConfusion hstep

/-! ## Lemmas about the fan-out delivery system -/

/-- Value conservation through fan-out delivery: at every reachable
configuration, the values already received by the workers (taken together,
as a multiset, optionally pushed through a stage function `f`) plus the
values still undelivered are exactly the values of the input stream.  In
particular no value is delivered to more than one worker and none is
duplicated or lost. -/
theorem fanOut_conservation {W : Nat} {xs : List Int}
    (f : Int → Option Int) {C : FanOutState W} (h : FanOutReach W xs C) :
    (∑ i : Fin W, (↑((C.received i).filterMap f) : Multiset Int)) +
        ↑(C.remaining.filterMap f) = (↑(xs.filterMap f) : Multiset Int) := by
  induction h with
  | init => simp
  | step hreach hstep ih =>
      rename_i C i C'
      rcases hrem : C.remaining with _ | ⟨v, rest⟩
      · simp only [foStep, hrem] at hstep
        exact Option.noConfusion hstep
      · simp only [foStep, hrem] at hstep
        injection hstep with hstep
        subst hstep
        have hpt : ∀ j : Fin W,
            (↑((Function.update C.received i (C.received i ++ [v]) j).filterMap f) : Multiset Int) =
              Function.update
                (fun j => (↑((C.received j).filterMap f) : Multiset Int)) i
                (↑((C.received i ++ [v]).filterMap f)) j := by
          intro j
          rcases eq_or_ne j i with rfl | hne
          · simp
          · simp [Function.update_noteq hne]
        rw [hrem] at ih
        calc (∑ j : Fin W,
                (↑((Function.update C.received i (C.received i ++ [v]) j).filterMap f) : Multiset Int)) +
              (↑(rest.filterMap f) : Multiset Int)
            = (∑ j : Fin W,
                Function.update
                  (fun j => (↑((C.received j).filterMap f) : Multiset Int)) i
                  (↑((C.received i ++ [v]).filterMap f)) j) +
              (↑(rest.filterMap f) : Multiset Int) := by
              rw [Finset.sum_congr rfl (fun j _ => hpt j)]
          _ = ((↑((C.received i ++ [v]).filterMap f) : Multiset Int) +
                ∑ j ∈ Finset.univ \ {i},
                  (↑((C.received j).filterMap f) : Multiset Int)) +
              (↑(rest.filterMap f) : Multiset Int) := by
              rw [Finset.sum_update_of_mem (Finset.mem_univ i)]
          _ = ((↑((C.received i).filterMap f) : Multiset Int) +
                (↑([v].filterMap f) : Multiset Int) +
                ∑ j ∈ Finset.univ \ {i},
                  (↑((C.received j).filterMap f) : Multiset Int)) +
              (↑(rest.filterMap f) : Multiset Int) := by
              rw [List.filterMap_append, ← Multiset.coe_add]
          _ = ((↑((C.received i).filterMap f) : Multiset Int) +
                ∑ j ∈ Finset.univ \ {i},
                  (↑((C.received j).filterMap f) : Multiset Int)) +
              ((↑([v].filterMap f) : Multiset Int) +
                (↑(rest.filterMap f) : Multiset Int)) := by
              abel
          _ = (∑ j : Fin W, (↑((C.received j).filterMap f) : Multiset Int)) +
              (↑((v :: rest).filterMap f) : Multiset Int) := by
              rw [Finset.sdiff_singleton_eq_erase,
                ← Finset.add_sum_erase Finset.univ
                  (fun j => (↑((C.received j).filterMap f) : Multiset Int))
                  (Finset.mem_univ i),
                show (v :: rest) = [v] ++ rest from rfl, List.filterMap_append,
                ← Multiset.coe_add]
          _ = (↑(xs.filterMap f) : Multiset Int) := ih

/-- A single delivery step, stated against any pointwise description of the
updated reception table. -/
theorem foStep_eq {W : Nat} {r g : Fin W → List Int} {v : Int} {rest : List Int}
    {i : Fin W} (hg : ∀ j, g j = if j = i then r j ++ [v] else r j) :
    foStep ⟨v :: rest, r⟩ i = some ⟨rest, g⟩ := by
  simp only [foStep]
  congr 1
  congr 1
  funext j
  rw [hg j]
  by_cases h : j = i
  · subst h
    simp
  · simp [Function.update_noteq h, h]

/-- The input sequence of the fan-out example scenario. -/
def c1Input : List Int := [2, 3, 4, 5, 6, 7, 8, 9, 10, 11]

/-- One schedule of the 3-worker fan-out over `c1Input`: the scheduler
hands every value to worker 0. -/
def c1FinalState : FanOutState 3 := ⟨[], fun j => if j = 0 then c1Input else []⟩

theorem c1FinalState_reach : FanOutReach 3 c1Input c1FinalState := by
  have h0 : FanOutReach 3 c1Input ⟨c1Input, fun _ => []⟩ := FanOutReach.init
  have h1 : FanOutReach 3 c1Input
      (⟨[3, 4, 5, 6, 7, 8, 9, 10, 11], fun j => if j = 0 then [2] else []⟩ : FanOutState 3) :=
    FanOutReach.step (i := 0) h0 (foStep_eq (by decide))
  have h2 : FanOutReach 3 c1Input
      (⟨[4, 5, 6, 7, 8, 9, 10, 11], fun j => if j = 0 then [2, 3] else []⟩ : FanOutState 3) :=
    FanOutReach.step (i := 0) h1 (foStep_eq (by decide))
  have h3 : FanOutReach 3 c1Input
      (⟨[5, 6, 7, 8, 9, 10, 11], fun j => if j = 0 then [2, 3, 4] else []⟩ : FanOutState 3) :=
    FanOutReach.step (i := 0) h2 (foStep_eq (by decide))
  have h4 : FanOutReach 3 c1Input
      (⟨[6, 7, 8, 9, 10, 11], fun j => if j = 0 then [2, 3, 4, 5] else []⟩ : FanOutState 3) :=
    FanOutReach.step (i := 0) h3 (foStep_eq (by decide))
  have h5 : FanOutReach 3 c1Input
      (⟨[7, 8, 9, 10, 11], fun j => if j = 0 then [2, 3, 4, 5, 6] else []⟩ : FanOutState 3) :=
    FanOutReach.step (i := 0) h4 (foStep_eq (by decide))
  have h6 : FanOutReach 3 c1Input
      (⟨[8, 9, 10, 11], fun j => if j = 0 then [2, 3, 4, 5, 6, 7] else []⟩ : FanOutState 3) :=
    FanOutReach.step (i := 0) h5 (foStep_eq (by decide))
  have h7 : FanOutReach 3 c1Input
      (⟨[9, 10, 11], fun j => if j = 0 then [2, 3, 4, 5, 6, 7, 8] else []⟩ : FanOutState 3) :=
    FanOutReach.step (i := 0) h6 (foStep_eq (by decide))
  have h8 : FanOutReach 3 c1Input
      (⟨[10, 11], fun j => if j = 0 then [2, 3, 4, 5, 6, 7, 8, 9] else []⟩ : FanOutState 3) :=
    FanOutReach.step (i := 0) h7 (foStep_eq (by decide))
  have h9 : FanOutReach 3 c1Input
      (⟨[11], fun j => if j = 0 then [2, 3, 4, 5, 6, 7, 8, 9, 10] else []⟩ : FanOutState 3) :=
    FanOutReach.step (i := 0) h8 (foStep_eq (by decide))
  exact FanOutReach.step (i := 0) h9 (foStep_eq (by decide))

/-- Two schedules of a 2-worker fan-out over the stream `[1, 2]`:
both values to worker 0, ... -/
def schedA : FanOutState 2 := ⟨[], fun j => if j = 0 then [1, 2] else []⟩

/-- ... or value 1 to worker 1 and value 2 to worker 0. -/
def schedB : FanOutState 2 := ⟨[], fun j => if j = 0 then [2] else [1]⟩

theorem schedA_reach : FanOutReach 2 [1, 2] schedA := by
  have h0 : FanOutReach 2 [1, 2] ⟨[1, 2], fun _ => []⟩ := FanOutReach.init
  have h1 : FanOutReach 2 [1, 2]
      (⟨[2], fun j => if j = 0 then [1] else []⟩ : FanOutState 2) :=
    FanOutReach.step (i := 0) h0 (foStep_eq (by decide))
  exact FanOutReach.step (i := 0) h1 (foStep_eq (by decide))

theorem schedB_reach : FanOutReach 2 [1, 2] schedB := by
  have h0 : FanOutReach 2 [1, 2] ⟨[1, 2], fun _ => []⟩ := FanOutReach.init
  have h1 : FanOutReach 2 [1, 2]
      (⟨[2], fun j => if j = 1 then [1] else []⟩ : FanOutState 2) :=
    FanOutReach.step (i := 1) h0 (foStep_eq (by decide))
  exact FanOutReach.step (i := 0) h1 (foStep_eq (by decide))

/-- `filterMap some` is the identity: specialises `fanOut_conservation` to
raw value conservation. -/
theorem filterMap_some_eq (l : List Int) : l.filterMap some = l := by
  induction l with
  | nil => rfl
  | cons a l ih => simp [List.filterMap_cons, ih]

/-- `multiply` is the order- and length-preserving map `(· * m)`. -/
theorem multiply_eq_map (xs : List Int) (m : Int) :
    multiply xs m = xs.map (fun i => i * m) := by
  induction xs with
  | nil => rfl
  | cons a xs ih => simp [multiply, ih]

/-- A Go map read of a key absent from `Numerals` yields the zero value. -/
theorem numerals_neg {k : Int} (hneg : k < 0) : Numerals k = "" := by
  unfold Numerals
  repeat rw [if_neg (by omega)]

/-! ## The claims -/

/-- C5: composing the generator with the map-style `multiply` transform
yields the transformed inputs in the same order and count; in particular
`generator(1,2,3,4)` doubled emits exactly `2,4,6,8` in that order. -/
theorem claim_c5 : ∀ (xs : List Int) (m : Int),
    (multiply (generator xs) m).length = xs.length ∧
    multiply (generator xs) m = xs.map (fun i => i * m) ∧
    multiply (generator [1, 2, 3, 4]) 2 = [2, 4, 6, 8] := by
  intro xs m
  refine ⟨?_, multiply_eq_map (generator xs) m, by decide⟩
  rw [multiply_eq_map]
  simp [generator]

/-- C9: a request `/roman_number/k` whose `k` parses to a negative integer
(the only integers with `k ≠ 0`, `k ≤ 10` outside `1..10`) takes the
success branch: the handler responds 200 with the quoted empty string,
while `k = 0` and `k > 10` get 404 Not Found. -/
theorem claim_c9 : ∀ k : Int, k ≠ 0 → k ≤ 10 → ¬(1 ≤ k ∧ k ≤ 10) →
    romanNumberHandler k = ⟨200, "\"\""⟩ ∧
    romanNumberHandler 0 = ⟨404, "404 - Not Found"⟩ ∧
    (∀ m : Int, m > 10 → romanNumberHandler m = ⟨404, "404 - Not Found"⟩) := by
  intro k h0 h10 hrange
  have hneg : k < 0 := by omega
  refine ⟨?_, rfl, ?_⟩
  · unfold romanNumberHandler
    rw [if_neg (by omega), numerals_neg hneg]
    rfl
  · intro m hm
    unfold romanNumberHandler
    rw [if_pos (Or.inr hm)]

/-- Witness for C9 at the concrete negative input `k = -5` (and `m = 11`
for the inner bound). -/
theorem claim_c9_witness :
    romanNumberHandler (-5) = ⟨200, "\"\""⟩ ∧
    romanNumberHandler 11 = ⟨404, "404 - Not Found"⟩ := by
  have h := claim_c9 (-5) (by omega) (by omega) (by omega)
  exact ⟨h.1, h.2.2 11 (by omega)⟩

/-- C10: `primeFinder` tests and emits `n - 1`, not `n`: it emits `n - 1`
exactly when `n - 1` has no divisor strictly between `1` and `n - 2`; in
particular it emits the non-prime values `1` (for input `2`) and `0` (for
input `1`), and emits `n - 1` for every input `n ≤ 3`. -/
theorem claim_c10 : ∀ n : Int,
    (primeFinder [n] = [n - 1] ↔
      ∀ d : Int, 1 < d → d < n - 2 → (n - 1) % d ≠ 0) ∧
    (primeFinder [n] = [n - 1] ∨ primeFinder [n] = []) ∧
    (n ≤ 3 → primeFinder [n] = [n - 1]) ∧
    (primeFinder [2] = [1] ∧ ¬Nat.Prime 1) ∧
    (primeFinder [1] = [0] ∧ ¬Nat.Prime 0) := by
  intro n
  have hsing := primeFinder_singleton n
  have hstrict : primeLoop (n - 1) = true ↔
      ∀ d : Int, 1 < d → d < n - 2 → (n - 1) % d ≠ 0 := by
    have h : primeLoop (n - 1) = true ↔
        ∀ d : Int, 1 < d → d < n - 1 - 1 → (n - 1) % d ≠ 0 := primeLoop_iff_strict
    rwa [show n - 1 - 1 = n - 2 from by ring] at h
  refine ⟨?_, ?_, ?_, by decide, by decide⟩
  · rw [hsing]
    by_cases h : primeLoop (n - 1) = true
    · rw [if_pos h]
      exact iff_of_true rfl (hstrict.mp h)
    · rw [if_neg h]
      apply iff_of_false
      · simp
      · exact fun hall => h (hstrict.mpr hall)
  · rw [hsing]
    by_cases h : primeLoop (n - 1) = true
    · rw [if_pos h]
      exact Or.inl rfl
    · rw [if_neg h]
      exact Or.inr rfl
  · intro hn
    rw [hsing, if_pos]
    rw [primeLoop_iff]
    intro d h2 h1
    omega

/-- Witness for C10: the boundary input `n = 3` is emitted as `2`, and the
divisor characterisation applied at `n = 10` rejects the input (divisor 3
of 9). -/
theorem claim_c10_witness :
    primeFinder [3] = [(2 : Int)] ∧ primeFinder [(10 : Int)] = [] := by
  refine ⟨(claim_c10 3).2.2.1 (by decide), ?_⟩
  rcases (claim_c10 10).2.1 with h | h
  · exfalso
    have := (claim_c10 10).1.mp h 3 (by decide) (by decide)
    exact this (by decide)
  · exact h

/-- Counterexample to C2: over a finite closed stream holding one value,
`take(stream, 3)` does not emit just the one available value — it emits
three values, padding with zero values read from the closed stream. -/
theorem claim_c2_counterexample :
    take [(5 : Int)] 0 3 = [5, 0, 0] ∧ take [(5 : Int)] 0 3 ≠ [5] := by
  decide

/-- C2 (amended): `take(stream, N)` always emits exactly `N` values and
then closes.  When the stream holds at least `N` values these are the first
`N` stream values; when the finite stream holds fewer, the available values
are followed by zero values read from the closed stream — `take` closes
without blocking forever, but it does not stop at the available values. -/
theorem claim_c2_amended : ∀ (α : Type) (xs : List α) (z : α) (num : Int),
    (num.toNat ≤ xs.length →
      take xs z num = List.take num.toNat xs ∧
        (take xs z num).length = num.toNat) ∧
    (xs.length < num.toNat →
      take xs z num = xs ++ List.replicate (num.toNat - xs.length) z ∧
        (take xs z num).length = num.toNat) := by
  intro α xs z num
  constructor
  · intro h
    exact ⟨take_of_le xs z num h, take_length xs z num⟩
  · intro h
    refine ⟨?_, take_length xs z num⟩
    rw [take_eq, List.take_of_length_le (by omega)]

/-- Witness for C2 (amended) at `[5, 6, 7]` with `N = 2` and at `[5]` with
`N = 3`. -/
theorem claim_c2_witness :
    take [(5 : Int), 6, 7] 0 2 = [5, 6] ∧
    take [(5 : Int)] 0 3 = [5] ++ List.replicate 2 0 := by
  constructor
  · have h := (claim_c2_amended Int [5, 6, 7] 0 2).1 (by decide)
    rw [h.1]
    decide
  · exact ((claim_c2_amended Int [5] 0 3).2 (by decide)).1

/-- Counterexample to C7: `take` over an already-closed, exhausted input
stream still forwards a value downstream — the zero value it reads from
the closed stream. -/
theorem claim_c7_counterexample :
    take ([] : List Int) 0 1 = [0] ∧ take ([] : List Int) 0 1 ≠ [] := by
  decide

/-- C7 (amended): a closed stream never reopens (`done`, `valueStream` and
`takeStream` closed-flags are monotone along every pipeline step), and a
closed stream delivers no further sent values — but reads from a closed
stream yield the zero value, and `take` forwards exactly those zero values
downstream at every position past the end of its input. -/
theorem claim_c7_amended :
    (∀ (C : PipeState) (l : PLabel) (C' : PipeState), pstep C l = some C' →
      (C.doneClosed = true → C'.doneClosed = true) ∧
      (C.vClosed = true → C'.vClosed = true) ∧
      (C.tClosed = true → C'.tClosed = true)) ∧
    (∀ (xs : List Int) (z : Int) (num : Int) (i : Nat),
      xs.length ≤ i → i < num.toNat → (take xs z num)[i]? = some z) := by
  constructor
  · exact fun C l C' h => pstep_mono h
  · intro xs z num i hlen hi
    unfold take
    rw [List.getElem?_map, List.getElem?_range hi]
    simp only [Option.map_some']
    rw [List.getD_eq_getElem?_getD, List.getElem?_eq_none hlen]
    rfl

/-- Witness for C7 (amended): a concrete step keeps `valueStream` closed,
and `take` over the closed empty stream forwards the zero value. -/
theorem claim_c7_witness :
    ((⟨true, true, false, RepeatPC.terminated, TakePC.send, 1⟩ :
        PipeState).vClosed = true) ∧
    (take ([] : List Int) 7 1)[0]? = some 7 := by
  constructor
  · exact (claim_c7_amended.1
      ⟨true, true, false, RepeatPC.terminated, TakePC.send, 1⟩
      PLabel.takeDone
      ⟨true, true, true, RepeatPC.terminated, TakePC.terminated, 1⟩
      (by decide)).2.1 rfl
  · exact claim_c7_amended.2 [] 7 1 0 (by decide) (by decide)

/-- Counterexample to C6: a second activation of the cancellation signal is
not a no-op with the same observable result — in Go a second `close` of the
`done` channel is a runtime panic ("close of closed channel"). -/
theorem claim_c6_counterexample :
    (closeSignal newCancelSignal).bind closeSignal =
        Except.error "close of closed channel" ∧
    (closeSignal newCancelSignal).bind closeSignal ≠
        closeSignal newCancelSignal := by
  constructor
  · rfl
  · intro h
    have h1 : (closeSignal newCancelSignal).bind closeSignal =
        (Except.error "close of closed channel" : Except String CancelSignal) := rfl
    have h2 : closeSignal newCancelSignal =
        (Except.ok ⟨true⟩ : Except String CancelSignal) := rfl
    rw [h1, h2] at h
    exact Except.noConfusion h

/-- C6 (amended): activating the signal once succeeds and is permanent —
every holder observes the active state forever after (both at the channel
and along every pipeline step) — but a second activation is not a no-op:
closing the already-closed `done` channel panics. -/
theorem claim_c6_amended :
    closeSignal newCancelSignal = Except.ok ⟨true⟩ ∧
    (∀ c c' : CancelSignal, closeSignal c = Except.ok c' →
      doneObserved c' = true) ∧
    (∀ c : CancelSignal, doneObserved c = true →
      closeSignal c = Except.error "close of closed channel") ∧
    (∀ (C : PipeState) (l : PLabel) (C' : PipeState), pstep C l = some C' →
      C.doneClosed = true → C'.doneClosed = true) := by
  refine ⟨rfl, ?_, ?_, fun C l C' h => (pstep_mono h).1⟩
  · intro c c' h
    unfold closeSignal at h
    split at h
    · exact Except.noConfusion h
    · injection h with h
      subst h
      rfl
  · intro c h
    unfold closeSignal
    rw [if_pos]
    exact h

/-- Witness for C6 (amended): the freshly activated signal observes active,
an active signal panics on re-close, and a concrete pipeline step keeps
`done` closed. -/
theorem claim_c6_witness :
    doneObserved ⟨true⟩ = true ∧
    closeSignal ⟨true⟩ = Except.error "close of closed channel" ∧
    ((⟨true, false, false, RepeatPC.select, TakePC.recv, 1⟩ :
        PipeState).doneClosed = true) := by
  refine ⟨claim_c6_amended.2.1 newCancelSignal ⟨true⟩ rfl, ?_, ?_⟩
  · exact claim_c6_amended.2.2.1 ⟨true⟩ rfl
  · exact claim_c6_amended.2.2.2
      ⟨true, false, false, RepeatPC.select, TakePC.recv, 1⟩
      PLabel.repeatDone
      ⟨true, true, false, RepeatPC.terminated, TakePC.recv, 1⟩
      (by decide) rfl

/-- Counterexample to C1: `primeFinder` does not emit a prime input `n` as
itself — for the prime input `2` it emits `1`; over the example input
`{2,...,11}` it emits `{1,2,3,5,7}`, which is not a subset of
`{2,3,5,7,11}`. -/
theorem claim_c1_counterexample :
    Nat.Prime 2 ∧ primeFinder [2] = [1] ∧ primeFinder [2] ≠ [2] ∧
    primeFinder [2, 3, 4, 5, 6, 7, 8, 9, 10, 11] = [1, 2, 3, 5, 7] ∧
    (1 : Int) ∉ ([2, 3, 5, 7, 11] : List Int) := by
  decide

/-- C1 (amended): for input `n` the `primeFinder` stage emits `n - 1`
(exactly when the naive divisor scan accepts `n - 1`); fan-out with 3
workers over the input sequence `{2,...,11}` followed by fan-in and
`take(.., 5)` yields, under every scheduling of the shared stream to the
workers and every interleaving of their outputs, exactly the 5 values
`{1, 2, 3, 5, 7}` (as a multiset). -/
theorem claim_c1_amended : ∀ C : FanOutState 3, FanOutReach 3 c1Input C →
    C.remaining = [] →
    (∑ i : Fin 3, (↑(primeFinder (C.received i)) : Multiset Int)) =
      ({1, 2, 3, 5, 7} : Multiset Int) ∧
    ∀ merged : List Int,
      (↑merged : Multiset Int) =
          (∑ i : Fin 3, (↑(primeFinder (C.received i)) : Multiset Int)) →
        merged.length = 5 ∧ take merged 0 5 = merged := by
  intro C hreach hrem
  have hcons := fanOut_conservation primeFinderStep hreach
  rw [hrem] at hcons
  simp only [List.filterMap_nil, Multiset.coe_nil, add_zero] at hcons
  have hsum : (∑ i : Fin 3, (↑(primeFinder (C.received i)) : Multiset Int)) =
      ({1, 2, 3, 5, 7} : Multiset Int) := by
    have hdef : (∑ i : Fin 3, (↑(primeFinder (C.received i)) : Multiset Int)) =
        ∑ i : Fin 3,
          (↑((C.received i).filterMap primeFinderStep) : Multiset Int) := rfl
    rw [hdef, hcons]
    decide
  refine ⟨hsum, ?_⟩
  intro merged hm
  rw [hsum] at hm
  have hlen : merged.length = 5 := by
    have hcard := congrArg Multiset.card hm
    simpa using hcard
  exact ⟨hlen, take_of_length_eq merged 0 5 (by rw [hlen]; rfl)⟩

/-- Witness for C1 (amended) at the schedule handing every value to
worker 0. -/
theorem claim_c1_witness :
    (∑ i : Fin 3, (↑(primeFinder (c1FinalState.received i)) : Multiset Int)) =
      ({1, 2, 3, 5, 7} : Multiset Int) :=
  (claim_c1_amended c1FinalState c1FinalState_reach rfl).1

/-- The configuration of the modelled pipeline right after cancellation
fires at the start: `repeatFn` at its select, `take` suspended at its bare
`<-valueStream` receive, `done` closed, both streams open. -/
def c3Cfg : PipeState :=
  ⟨true, false, false, RepeatPC.select, TakePC.recv, 1⟩

/-- Counterexample to C3: in the reachable configuration `c3Cfg` the
cancellation signal is active while `take` is suspended on its stream read,
yet none of `take`'s own transitions is enabled — the bare receive
`<-valueStream` does not race `done`, so the stage is suspended on a stream
operation without observing cancellation (only an upstream step can release
it). -/
theorem claim_c3_counterexample :
    pstep (initPipe 1) PLabel.closeDone = some c3Cfg ∧
    c3Cfg.doneClosed = true ∧ c3Cfg.tp = TakePC.recv ∧
    pstep c3Cfg PLabel.recvClosedZero = none ∧
    pstep c3Cfg PLabel.takeDone = none ∧
    pstep c3Cfg PLabel.takeSend = none := by
  decide

/-- C3 (amended): once the cancellation signal is active, every execution
of the modelled pipeline reaches a terminal configuration within a bounded
number of steps (at most `2·remaining + 3`) — but not because every
suspension races `done`: `take`'s bare receive is released by the upstream
stage closing its output stream. -/
theorem claim_c3_amended : ∀ C : PipeState, C.doneClosed = true →
    PipeCoherent C →
    pmeasure C ≤ 2 * C.remaining + 3 ∧ AllTracesTerm (pmeasure C) C := by
  intro C hd hc
  constructor
  · obtain ⟨d, v, t, rp, tp, rem⟩ := C
    rcases rp <;> rcases tp <;> simp [pmeasure] <;> omega
  · exact allTracesTerm_of_measure (pmeasure C) C le_rfl hd hc

/-- Witness for C3 (amended) at the concrete post-cancellation
configuration `c3Cfg`. -/
theorem claim_c3_witness :
    pmeasure c3Cfg ≤ 2 * c3Cfg.remaining + 3 ∧
      AllTracesTerm (pmeasure c3Cfg) c3Cfg :=
  claim_c3_amended c3Cfg rfl (by intro h; exact RepeatPC.noConfusion h)

/-- C4: in every reachable configuration of `fanIn`, (a) if the merged
stream is closed then every forwarding goroutine has finished; (b) the
close transition fires only from an open merged stream and closes it —
with (c) closedness monotone along every step, the merged stream closes
exactly once; (d) once every forwarder has finished, the close transition
is enabled; (e) while the merged stream is closed no forwarder can still
deliver a value into it. -/
theorem claim_c4 : ∀ (k : Nat) (C : FanInState k), FanInReach k C →
    (C.mergedClosed = true → ∀ i, C.fwd i = FwdPC.done) ∧
    (∀ C', finStep C FanInLabel.closeMerged = some C' →
      C.mergedClosed = false ∧ C'.mergedClosed = true) ∧
    (∀ (l : FanInLabel k) (C' : FanInState k), finStep C l = some C' →
      C.mergedClosed = true → C'.mergedClosed = true) ∧
    ((∀ i, C.fwd i = FwdPC.done) → C.mergedClosed = false →
      finStep C FanInLabel.closeMerged = some ⟨C.fwd, true⟩) ∧
    (C.mergedClosed = true → ∀ i, finStep C (FanInLabel.forward i) = none) := by
  intro k C hreach
  refine ⟨fanIn_closed_invariant hreach, ?_, ?_, ?_, ?_⟩
  · intro C' h
    simp only [finStep] at h
    split at h
    · rename_i hguard
      injection h with h
      subst h
      exact ⟨by simpa using hguard.2, rfl⟩
    · exact Option.noConfusion h
  · intro l C' h hm
    cases l <;> simp only [finStep] at h <;> split at h <;>
      first
        | exact Option.noConfusion h
        | (injection h with h
           subst h
           simp_all)
  · intro hall hm
    simp only [finStep]
    rw [if_pos ⟨hall, by simp [hm]⟩]
  · intro hm i
    have hdone := fanIn_closed_invariant hreach hm i
    simp only [finStep]
    rw [if_neg]
    simp [hdone]

/-- The `fanIn` configuration over one input channel after its forwarder
finished and the closer closed the merged stream. -/
def c4Closed : FanInState 1 := ⟨fun _ => FwdPC.done, true⟩

theorem c4Closed_reach : FanInReach 1 c4Closed := by
  have h0 : FanInReach 1 (initFanIn 1) := FanInReach.init
  have h1 : FanInReach 1 (⟨fun _ => FwdPC.done, false⟩ : FanInState 1) := by
    refine FanInReach.step h0 (l := FanInLabel.finish 0) ?_
    simp only [finStep, initFanIn]
    split
    · congr 1
      congr 1
      funext j
      rcases show j = 0 from Subsingleton.elim j 0 with rfl
      simp
    · rename_i hguard
      simp at hguard
  refine FanInReach.step h1 (l := FanInLabel.closeMerged) ?_
  simp only [finStep]
  split
  · rfl
  · rename_i hguard
    simp at hguard

/-- Witness for C4 at the closed one-channel configuration. -/
theorem claim_c4_witness : c4Closed.fwd 0 = FwdPC.done :=
  (claim_c4 1 c4Closed c4Closed_reach).1 rfl 0

/-- C8: in every reachable configuration of the fan-out delivery system,
the values received across workers plus the undelivered values are exactly
the input values (each value delivered to exactly one worker, none
duplicated, none lost); and no cross-worker ordering is guaranteed — two
schedules of the same input give the same worker different streams. -/
theorem claim_c8 :
    (∀ (W : Nat) (xs : List Int) (C : FanOutState W), FanOutReach W xs C →
      (∑ i : Fin W, (↑(C.received i) : Multiset Int)) + ↑C.remaining =
        (↑xs : Multiset Int)) ∧
    (FanOutReach 2 [1, 2] schedA ∧ FanOutReach 2 [1, 2] schedB ∧
      schedA.received 0 ≠ schedB.received 0 ∧
      schedA.received 1 ≠ schedB.received 1) := by
  constructor
  · intro W xs C h
    have hcons := fanOut_conservation some h
    simpa [filterMap_some_eq] using hcons
  · exact ⟨schedA_reach, schedB_reach, by decide, by decide⟩

/-- Witness for C8 at the schedule `schedA`. -/
theorem claim_c8_witness :
    (∑ i : Fin 2, (↑(schedA.received i) : Multiset Int)) + ↑schedA.remaining =
      (↑([1, 2] : List Int) : Multiset Int) :=
  claim_c8.1 2 [1, 2] schedA schedA_reach
